import Mathlib

/-
  Verification development for the MIDC chatbot query-normalization core
  (`improved_query_handler.py`, class SmartQueryHandler).

  Shallow embedding notes:
  * Python strings are modelled as Lean `String` (a wrapper around `List Char`);
    character-level work happens on `.data`.
  * `str.lower()` is modelled as a character-wise map with `Char.toLower`
    (ASCII case folding; Devanagari and other unmapped characters are fixed,
    exactly as in Python for the character sets these tables use).
  * Python `needle in haystack` on strings is the substring test `containsSub`;
    `x in someList` is exact membership.
  * Python dicts are association lists in source order.  A dict literal that
    repeats a key keeps the first position with the last value ("last
    definition wins"), so the lists below carry the effective entries.
  * `str.replace(old, new)` is `pyReplace`: a single left-to-right pass of
    non-overlapping replacement (replaced text is not rescanned), including
    the Python behaviour of inserting `new` at every boundary when `old` is
    empty.
  * `str.split()` with no argument (`pySplit`) splits on whitespace runs and
    drops empty tokens.
  * `re.findall(r"ro\s+(\w+)", s)` is `roFindAll`: leftmost, non-overlapping
    matches, greedy `\w+` capture.
-/

set_option maxRecDepth 4000

/-! ## Character / string primitives -/

def isSpaceC (c : Char) : Bool := c.isWhitespace

def isWordChar (c : Char) : Bool :=
  c.isAlphanum || c == '_' || (decide (0x900 ≤ c.toNat) && decide (c.toNat ≤ 0x97F))

/-- Python `needle in haystack` for strings: substring containment. -/
def containsSub (needle : List Char) : List Char → Bool
  | [] => needle.isEmpty
  | c :: t => needle.isPrefixOf (c :: t) || containsSub needle t

/-- Substring test with a `String` needle against raw character data. -/
def subStr (needle : String) (hay : List Char) : Bool := containsSub needle.data hay

/-- Python `s.lower()` (character-wise ASCII case folding). -/
def pyLower (s : String) : String := String.mk (s.data.map Char.toLower)

/-- Helper for `pySplit`: walks the characters, collecting the current token
in reverse in `acc`. -/
def splitWsAux : List Char → List Char → List (List Char)
  | [], acc => if acc.isEmpty then [] else [acc.reverse]
  | c :: cs, acc =>
    if isSpaceC c then
      (if acc.isEmpty then splitWsAux cs [] else acc.reverse :: splitWsAux cs [])
    else splitWsAux cs (c :: acc)

/-- Python `s.split()` on raw character data: split on whitespace runs,
dropping empty tokens. -/
def splitWsCL (l : List Char) : List (List Char) := splitWsAux l []

/-- Python `s.split()`. -/
def pySplit (s : String) : List String := (splitWsCL s.data).map String.mk

/-- Python `s.replace(old, new)`: replace every non-overlapping occurrence of
`old` left to right; inserted text is not rescanned.  With `old` empty, `new`
is inserted at every position, as in Python. -/
def pyReplaceAux (old c : List Char) : Nat → List Char → List Char
  | _, [] => if old = [] then c else []
  | 0, t => t
  | fuel + 1, ch :: cs =>
    if old = [] then c ++ ch :: pyReplaceAux old c fuel cs
    else if old.isPrefixOf (ch :: cs) then
      c ++ pyReplaceAux old c fuel (cs.drop (old.length - 1))
    else ch :: pyReplaceAux old c fuel cs

def pyReplace (t old c : List Char) : List Char := pyReplaceAux old c t.length t

theorem pyReplaceAux_irrel (old c : List Char) :
    ∀ n m t, t.length ≤ n → t.length ≤ m → pyReplaceAux old c n t = pyReplaceAux old c m t := by
  intro n
  induction n with
  | zero =>
    intro m t hn _
    have ht : t = [] := List.eq_nil_of_length_eq_zero (Nat.le_zero.mp hn)
    subst ht
    rw [pyReplaceAux, pyReplaceAux]
  | succ n ih =>
    intro m t hn hm
    cases t with
    | nil => rw [pyReplaceAux, pyReplaceAux]
    | cons ch cs =>
      cases m with
      | zero => simp at hm
      | succ m =>
        rw [pyReplaceAux, pyReplaceAux]
        simp only [List.length_cons, Nat.add_le_add_iff_right] at hn hm
        by_cases hone : old = []
        · rw [if_pos hone, if_pos hone, ih m cs hn hm]
        · rw [if_neg hone, if_neg hone]
          by_cases hpre : old.isPrefixOf (ch :: cs)
          · rw [if_pos hpre, if_pos hpre,
              ih m (cs.drop (old.length - 1))
                (by simp only [List.length_drop]; omega)
                (by simp only [List.length_drop]; omega)]
          · rw [if_neg hpre, if_neg hpre, ih m cs hn hm]

theorem pyReplaceAux_eq (old c : List Char) (n : Nat) (t : List Char) (h : t.length ≤ n) :
    pyReplaceAux old c n t = pyReplace t old c :=
  pyReplaceAux_irrel old c n t.length t h le_rfl

theorem pyReplace_nil (old c : List Char) :
    pyReplace [] old c = if old = [] then c else [] := by
  simp only [pyReplace, List.length_nil]
  rw [pyReplaceAux]

theorem pyReplace_cons (ch : Char) (cs old c : List Char) :
    pyReplace (ch :: cs) old c =
      if old = [] then c ++ ch :: pyReplace cs old c
      else if old.isPrefixOf (ch :: cs) then
        c ++ pyReplace (cs.drop (old.length - 1)) old c
      else ch :: pyReplace cs old c := by
  simp only [pyReplace, List.length_cons]
  rw [pyReplaceAux]
  rw [pyReplaceAux_eq old c cs.length cs le_rfl,
    pyReplaceAux_eq old c cs.length (cs.drop (old.length - 1))
      (by simp only [List.length_drop]; omega)]
  rfl

/-! ## The static tables of `SmartQueryHandler.__init__` -/

/-- Table `self.region_mappings` (the duplicate `bhusawal` literal keys collapse to
one entry with the same value, as Python dict literals do). -/
def region_mappings : List (String × String) := [
  ("pune", "RO PUNE-I RO PUNE-II"),
  ("punya", "RO PUNE-I RO PUNE-II"),
  ("puny", "RO PUNE-I RO PUNE-II"),
  ("chandrapur", "RO Chandrapur"),
  ("baramati", "RO Baramati"),
  ("nagpur", "RO NAGPUR"),
  ("ratnagiri", "RO RATNAGIRI"),
  ("aurangabad", "RO AURANGABAD"),
  ("mumbai", "RO THANE-I RO THANE-II"),
  ("thane", "RO THANE-I RO THANE-II"),
  ("amravati", "RO AMRAVATI"),
  ("dhule", "RO DHULE"),
  ("jalgaon", "RO Jalgaon"),
  ("bhusaval", "RO Jalgaon"),
  ("bhusawal", "RO Jalgaon"),
  ("bhusawad", "RO Jalgaon"),
  ("पुणे", "RO PUNE-I RO PUNE-II"),
  ("चंद्रपूर", "RO Chandrapur"),
  ("बारामती", "RO Baramati"),
  ("नागपूर", "RO NAGPUR"),
  ("रत्नागिरी", "RO RATNAGIRI"),
  ("औरंगाबाद", "RO AURANGABAD"),
  ("मुंबई", "RO THANE-I RO THANE-II"),
  ("ठाणे", "RO THANE-I RO THANE-II"),
  ("अमरावती", "RO AMRAVATI"),
  ("धुळे", "RO DHULE"),
  ("जळगाव", "RO Jalgaon"),
  ("भुसावळ", "RO Jalgaon"),
  ("भुसावल", "RO Jalgaon")]

/-- Table `self.area_to_ro_mappings`. -/
def area_to_ro_mappings : List (String × String) := [
  ("bhusaval", "RO Jalgaon"),
  ("bhusawal", "RO Jalgaon"),
  ("bhusawad", "RO Jalgaon"),
  ("talegaon", "RO PUNE-I"),
  ("chakan", "RO PUNE-I"),
  ("hinjawadi", "RO PUNE-II"),
  ("rajiv gandhi infotech park", "RO PUNE-II"),
  ("wardha", "RO Chandrapur"),
  ("addl. chandrapur", "RO Chandrapur"),
  ("baramati", "RO Baramati"),
  ("nagpur", "RO NAGPUR"),
  ("borgaon meghe", "RO NAGPUR"),
  ("bhivapur", "RO NAGPUR"),
  ("ratnagiri", "RO RATNAGIRI"),
  ("aurangabad", "RO AURANGABAD"),
  ("thane", "RO THANE-I"),
  ("ambarnath", "RO THANE-II"),
  ("kalyan", "RO THANE-II"),
  ("bhiwandi", "RO THANE-II"),
  ("amravati", "RO AMRAVATI"),
  ("ghatanji", "RO AMRAVATI"),
  ("bhatkuli", "RO AMRAVATI"),
  ("dhule", "RO DHULE"),
  ("nandurbar", "RO DHULE"),
  ("bhaler", "RO DHULE")]

/-- Table `self.property_mappings`. -/
def property_mappings : List (String × String) := [
  ("residential", "Residential"),
  ("commercial", "Commercial"),
  ("industrial", "Industrial"),
  ("plots", "Industrial"),
  ("plot", "Industrial"),
  ("land", "Industrial"),
  ("price", "Industrial"),
  ("rates", "Industrial"),
  ("औद्योगिक", "Industrial"),
  ("कॉमर्शियल", "Commercial"),
  ("रहिवासी", "Residential"),
  ("प्लॉट", "Industrial"),
  ("जमीन", "Industrial"),
  ("किंमत", "Industrial"),
  ("दर", "Industrial")]

/-- Table `self.mixed_language_mappings`. -/
def mixed_language_mappings : List (String × String) := [
  ("punya", "pune"),
  ("puny", "pune"),
  ("plots", "plots"),
  ("aahet", "are"),
  ("aahe", "are"),
  ("ka", "what"),
  ("kay", "what"),
  ("price", "price"),
  ("kimi", "price"),
  ("kimti", "price"),
  ("dar", "rate"),
  ("rate", "rate"),
  ("rates", "rates")]

/-- Table `self.marathi_transliteration_tokens` — effective entries of the source
dict literal: repeated keys (`kuthun`, `kiti`, `nahi`, `hoi`, `jameen`,
`bhukhand`, `kendr`, `prant`) keep their first position and last value, so
`kiti` glosses to "how many" and `nahi` to "not". -/
def marathi_transliteration_tokens : List (String × String) := [
  ("ka", "what"),
  ("kay", "what"),
  ("kuthe", "where"),
  ("kase", "how"),
  ("kadhi", "when"),
  ("kiti", "how many"),
  ("koni", "who"),
  ("kashi", "how"),
  ("kashala", "why"),
  ("kuthun", "from where"),
  ("madhe", "in"),
  ("madhye", "in"),
  ("madhyat", "in"),
  ("var", "on"),
  ("la", "to"),
  ("hun", "from"),
  ("pasun", "from"),
  ("sathi", "for"),
  ("barobar", "with"),
  ("sobat", "with"),
  ("aahet", "are"),
  ("aahe", "are"),
  ("ahe", "is"),
  ("nahi", "not"),
  ("hoi", "yes"),
  ("dya", "give"),
  ("dakhav", "show"),
  ("shodh", "find"),
  ("vach", "read"),
  ("sang", "tell"),
  ("bol", "say"),
  ("kar", "do"),
  ("ghya", "take"),
  ("de", "give"),
  ("le", "take"),
  ("jameen", "land"),
  ("bhumi", "land"),
  ("plot", "plot"),
  ("plots", "plots"),
  ("bhukhand", "plot"),
  ("sthal", "place"),
  ("jaga", "place"),
  ("sthala", "place"),
  ("kimti", "price"),
  ("kimmat", "price"),
  ("dar", "rate"),
  ("mulya", "value"),
  ("kharcha", "cost"),
  ("paisa", "money"),
  ("rupya", "rupees"),
  ("rs", "rupees"),
  ("rupees", "rupees"),
  ("motha", "big"),
  ("lahan", "small"),
  ("swast", "cheap"),
  ("mahag", "expensive"),
  ("jast", "more"),
  ("kami", "less"),
  ("sagla", "all"),
  ("ek", "one"),
  ("don", "two"),
  ("teen", "three"),
  ("char", "four"),
  ("pach", "five"),
  ("aata", "now"),
  ("aaj", "today"),
  ("kal", "yesterday"),
  ("udya", "tomorrow"),
  ("parso", "day after"),
  ("upalabdh", "available"),
  ("mila", "got"),
  ("nako", "no"),
  ("kendr", "center"),
  ("karya", "work"),
  ("karyalay", "office"),
  ("prant", "region"),
  ("ani", "and"),
  ("pan", "but"),
  ("ki", "or"),
  ("mhanun", "therefore"),
  ("karan", "because"),
  ("jari", "even if"),
  ("tar", "then"),
  ("maga", "then"),
  ("nantar", "after"),
  ("adhi", "before"),
  ("krupaya", "please"),
  ("dhanyawad", "thank you"),
  ("maaf", "sorry"),
  ("namaskar", "hello"),
  ("namaste", "hello")]

/-- Table `self.semantic_synonyms`. -/
def semantic_synonyms : List (String × List String) := [
  ("pune", ["punya", "puny", "pune", "पुणे"]),
  ("mumbai", ["mumbai", "bombay", "मुंबई"]),
  ("bhusaval", ["bhusaval", "bhusawal", "bhusawad", "भुसावळ"]),
  ("jalgaon", ["jalgaon", "jalgon", "jalgaun", "जळगाव"]),
  ("nagpur", ["nagpur", "नागपूर"]),
  ("aurangabad", ["aurangabad", "औरंगाबाद"]),
  ("thane", ["thane", "ठाणे"]),
  ("amravati", ["amravati", "अमरावती"]),
  ("dhule", ["dhule", "धुळे"]),
  ("chandrapur", ["chandrapur", "चंद्रपूर"]),
  ("ratnagiri", ["ratnagiri", "रत्नागिरी"]),
  ("baramati", ["baramati", "बारामती"]),
  ("plots", ["plots", "plot", "land", "जमीन", "प्लॉट", "भूखंड"]),
  ("industrial", ["industrial", "औद्योगिक", "industry", "manufacturing"]),
  ("commercial", ["commercial", "कॉमर्शियल", "business", "office"]),
  ("residential", ["residential", "रहिवासी", "housing", "home"]),
  ("price", ["price", "cost", "rate", "rates", "किंमत", "दर", "मूल्य"]),
  ("cheap", ["cheap", "low", "affordable", "budget", "स्वस्त", "कमी"]),
  ("expensive", ["expensive", "high", "costly", "महाग", "जास्त"]),
  ("available", ["available", "उपलब्ध", "aahet", "aahe", "have", "got"]),
  ("show", ["show", "दाखवा", "dakhav", "display", "list"]),
  ("find", ["find", "search", "look", "शोध", "shodh"]),
  ("get", ["get", "give", "द्या", "dya", "provide"]),
  ("what", ["what", "ka", "kay", "काय", "kay", "which"]),
  ("where", ["where", "kuthe", "कुठे", "location"]),
  ("how", ["how", "kase", "कसे", "method"]),
  ("when", ["when", "kadhi", "कधी", "time"]),
  ("ro", ["ro", "regional office", "प्रादेशिक कार्यालय"]),
  ("office", ["office", "कार्यालय", "kendr"])]

/-- Table `self.intent_patterns`. -/
def intent_patterns : List (String × List String) := [
  ("availability", ["available", "aahet", "aahe", "have", "got", "उपलब्ध"]),
  ("price_inquiry", ["price", "cost", "rate", "rates", "किंमत", "दर", "kay", "what"]),
  ("location_search", ["in", "madhe", "madhye", "at", "मध्ये", "location"]),
  ("property_type", ["plots", "industrial", "commercial", "residential", "प्लॉट"]),
  ("comparison", ["compare", "vs", "versus", "difference", "तुलना"]),
  ("cheapest", ["cheap", "lowest", "minimum", "स्वस्त", "कमी"]),
  ("largest", ["big", "large", "maximum", "मोठे", "जास्त"])]

/-- Table `self.spelling_variations` (inner lists keep their literal duplicates). -/
def spelling_variations : List (String × List String) := [
  ("bhusaval", ["bhusawal", "bhusawad", "bhusawal", "bhusaval"]),
  ("jalgaon", ["jalgaon", "jalgon", "jalgaun"]),
  ("pune", ["pune", "punee", "puna"]),
  ("mumbai", ["mumbai", "mumbay", "bombay"]),
  ("chandrapur", ["chandrapur", "chandrapur", "chandrapur"]),
  ("nagpur", ["nagpur", "nagpur", "nagpur"]),
  ("aurangabad", ["aurangabad", "aurangabad", "aurangabad"]),
  ("amravati", ["amravati", "amravati", "amravati"]),
  ("dhule", ["dhule", "dhule", "dhule"]),
  ("ratnagiri", ["ratnagiri", "ratnagiri", "ratnagiri"])]

/-- First-match association lookup: Python `d[k]` / `k in d` on the effective
entry list of a dict. -/
def lookupAssoc (tbl : List (String × String)) (k : String) : Option String :=
  (tbl.find? (fun p => p.1 == k)).map (fun p => p.2)

/-! ## Pipeline stages of `SmartQueryHandler` -/

/-- The structured record built by `_extract_root_concepts`. -/
structure Concepts where
  locations : List String
  property_types : List String
  price_related : List String
  availability_related : List String
  intents : List String
deriving DecidableEq, Repr

/-- The location subset of roots scanned by `_extract_root_concepts`. -/
def location_roots : List String :=
  ["pune", "mumbai", "bhusaval", "jalgaon", "nagpur", "aurangabad", "thane",
   "amravati", "dhule", "chandrapur", "ratnagiri", "baramati"]

/-- The property-type subset of roots. -/
def ptype_roots : List String := ["plots", "industrial", "commercial", "residential"]

/-- The price subset of roots. -/
def price_roots : List String := ["price", "cheap", "expensive"]

/-- The availability subset of roots. -/
def avail_roots : List String := ["available", "show", "find", "get"]

/-- One scanning pass of `_extract_root_concepts`: record each root of the
given subset one of whose synonyms occurs as a substring of the lower-cased
query. -/
def conceptScan (roots : List String) (ql : List Char) : List String :=
  (semantic_synonyms.filter
    (fun p => roots.contains p.1 && p.2.any (fun s => subStr s ql))).map (fun p => p.1)

/-- Source `SmartQueryHandler._detect_user_intent`. -/
def detect_user_intent (query : String) : List String :=
  let ql := (pyLower query).data
  (intent_patterns.filter (fun p => p.2.any (fun pat => subStr pat ql))).map (fun p => p.1)

/-- Source `SmartQueryHandler._extract_root_concepts`. -/
def extract_root_concepts (query : String) : Concepts :=
  let ql := (pyLower query).data
  ⟨conceptScan location_roots ql, conceptScan ptype_roots ql,
   conceptScan price_roots ql, conceptScan avail_roots ql,
   detect_user_intent query⟩

/-- Attempt to match the regex `ro\s+(\w+)` at the start of the text;
returns the captured word and the remainder after the match. -/
def roMatchAt : List Char → Option (List Char × List Char)
  | 'r' :: 'o' :: rest =>
    let wsPart := rest.takeWhile isSpaceC
    if wsPart.isEmpty then none
    else
      let afterWs := rest.dropWhile isSpaceC
      let word := afterWs.takeWhile isWordChar
      if word.isEmpty then none else some (word, afterWs.drop word.length)
  | _ => none

/-- Regex `re.findall(r"ro\s+(\w+)", text)`: leftmost non-overlapping matches.
The fuel argument (initialised to the text length, which each step strictly
exceeds in consumption) makes the recursion structural. -/
def roFindAllAux : Nat → List Char → List (List Char)
  | 0, _ => []
  | _ + 1, [] => []
  | fuel + 1, c :: t =>
    match roMatchAt (c :: t) with
    | some (w, rest) => w :: roFindAllAux fuel rest
    | none => roFindAllAux fuel t

def roFindAll (l : List Char) : List (List Char) := roFindAllAux l.length l

/-- Source `SmartQueryHandler._extract_locations`: direct city names, industrial
areas, then `ro <word>` mentions resolved against the region values. -/
def extract_locations (query : String) : List (String × String) :=
  let ql := (pyLower query).data
  (region_mappings.filter (fun p => subStr p.1 ql)) ++
  (area_to_ro_mappings.filter (fun p => subStr p.1 ql)) ++
  ((roFindAll ql).flatMap
    (fun m => region_mappings.filter (fun p => containsSub m (pyLower p.2).data)))

/-- The flattened `(correct_word, variation)` pairs iterated by
`_handle_spelling_mistakes`, in source order. -/
def spelling_pairs : List (String × String) :=
  spelling_variations.flatMap (fun p => p.2.map (fun v => (p.1, v)))

/-- One step of the `_handle_spelling_mistakes` loop: if the variation occurs
in the lower-cased *original* query and differs from the correct word, replace
it in the accumulated text. -/
def spellStep (lowq : List Char) (cur : String) (p : String × String) : String :=
  if subStr p.2 lowq && (p.2 != p.1) then
    String.mk (pyReplace cur.data p.2.data p.1.data)
  else cur

/-- Source `SmartQueryHandler._handle_spelling_mistakes`. -/
def handle_spelling_mistakes (query : String) : String :=
  spelling_pairs.foldl (spellStep (pyLower query).data) query

/-- Per-token resolution of `_handle_mixed_language`, in priority order:
transliteration table, then semantic-synonym groups, then mixed-language map,
else keep the token.  The Bool records a transliteration hit. -/
def normalize_token (w : String) : String × Bool :=
  let wl := pyLower w
  match lookupAssoc marathi_transliteration_tokens wl with
  | some g => (g, true)
  | none =>
    match semantic_synonyms.find? (fun p => p.2.contains wl) with
    | some p => (p.1, false)
    | none =>
      match lookupAssoc mixed_language_mappings wl with
      | some g => (g, false)
      | none => (w, false)

/-- The substituted token list of `_handle_mixed_language`. -/
def mixed_words (query : String) : List String :=
  ((pySplit query).map normalize_token).map Prod.fst

/-- Source `SmartQueryHandler._handle_mixed_language`: rejoined token substitutions
plus the "transliteration detected" flag (returned instead of being stored in
mutable handler state). -/
def handle_mixed_language (query : String) : String × Bool :=
  (String.intercalate " " (mixed_words query),
   ((pySplit query).map normalize_token).any Prod.snd)

/-- Steps 2 and 3 of `improve_query`: mixed-language handling then spelling
correction. -/
def corrected_of (q : String) : String :=
  handle_spelling_mistakes (handle_mixed_language q).1

/-- Step 5 of `improve_query`: append each found RO if not already present. -/
def roAdd (acc : List String) (p : String × String) : List String :=
  if p.2 ∈ acc then acc else acc ++ [p.2]

def ro_improvements (locations : List (String × String)) : List String :=
  locations.foldl roAdd []

/-- Step 6: property-type labels via `property_mappings` (guarded lookup). -/
def prop_segment (c : Concepts) : List String :=
  c.property_types.filterMap (fun t => lookupAssoc property_mappings t)

/-- Step 7: price phrases. -/
def price_segment (c : Concepts) : List String :=
  c.price_related.map (fun t =>
    if t = "cheap" then "low cost affordable budget"
    else if t = "expensive" then "high cost premium"
    else "price rate cost")

/-- Step 8: availability phrase. -/
def avail_segment (c : Concepts) : List String :=
  if c.availability_related ≠ [] then ["available plots land"] else []

/-- Step 9: intent phrases (intents other than the three listed contribute
nothing). -/
def intent_segment (c : Concepts) : List String :=
  c.intents.filterMap (fun i =>
    if i = "cheapest" then some "minimum lowest affordable"
    else if i = "largest" then some "maximum biggest"
    else if i = "comparison" then some "compare different options"
    else none)

/-- Step 10: the domain anchor, appended when any of the four concept fields
is non-empty. -/
def midc_segment (c : Concepts) : List String :=
  if c.locations ≠ [] ∨ c.property_types ≠ [] ∨
     c.price_related ≠ [] ∨ c.availability_related ≠ [] then
    ["MIDC Industrial Area"]
  else []

/-- The full "improvements" accumulator of `improve_query` for a given
corrected query and concept record (steps 5-10 run in sequence on one list;
only step 5 deduplicates, and at that point the list holds only ROs, so the
concatenation below is the exact accumulated list). -/
def improvements_of (corrected : String) (c : Concepts) : List String :=
  ro_improvements (extract_locations corrected) ++ prop_segment c ++
  price_segment c ++ avail_segment c ++ intent_segment c ++ midc_segment c

def improvements_list (q : String) : List String :=
  improvements_of (corrected_of q) (extract_root_concepts q)

/-- Source `SmartQueryHandler.improve_query` (spec name: `rewriteQuery`). -/
def improve_query (q : String) : String :=
  let corrected := corrected_of q
  let improvements := improvements_list q
  if improvements.isEmpty then corrected
  else corrected ++ " " ++ String.intercalate " " improvements

/-- The hardcoded secondary pattern list of `should_respond_in_marathi`. -/
def marathi_patterns : List String :=
  ["madhe", "madhye", "aahet", "aahe", "kay", "ka", "kuthe",
   "dya", "dakhav", "shodh", "kimti", "dar", "swast", "mahag"]

/-- Devanagari-script detection over the raw query. -/
def has_devanagari (q : String) : Bool :=
  q.data.any (fun c => decide (0x900 ≤ c.toNat) && decide (c.toNat ≤ 0x97F))

/-- Count of transliteration-table keys occurring as substrings of the
lower-cased query. -/
def marathi_tokens_found (ql : String) : Nat :=
  (marathi_transliteration_tokens.map (fun p => p.1)).countP (fun k => subStr k ql.data)

/-- Count of secondary patterns occurring as substrings. -/
def marathi_pattern_count (ql : String) : Nat :=
  marathi_patterns.countP (fun k => subStr k ql.data)

/-- Source `SmartQueryHandler.should_respond_in_marathi` (spec name:
`preferRegionalLanguage`). -/
def should_respond_in_marathi (q : String) : Bool :=
  let ql := pyLower q
  if has_devanagari q then true
  else if 2 ≤ marathi_tokens_found ql then true
  else if 2 ≤ marathi_pattern_count ql then true
  else false

/-! ## General lemmas about the string model -/

theorem isPrefixOf_eq_true (l₁ : List Char) : ∀ l₂, l₁.isPrefixOf l₂ = true ↔ l₁ <+: l₂ := by
  induction l₁ with
  | nil => intro l₂; simp [List.isPrefixOf]
  | cons a t ih =>
    intro l₂
    cases l₂ with
    | nil =>
      simp only [List.isPrefixOf]
      constructor
      · intro h; cases h
      · rintro ⟨w, hw⟩; cases hw
    | cons b t₂ =>
      simp only [List.isPrefixOf, Bool.and_eq_true, beq_iff_eq, ih, List.cons_prefix_cons]

theorem containsSub_iff (needle : List Char) : ∀ hay, containsSub needle hay = true ↔ needle <:+: hay := by
  intro hay
  induction hay with
  | nil => simp [containsSub, List.isEmpty_iff]
  | cons c t ih =>
    simp [containsSub, isPrefixOf_eq_true, ih, List.infix_cons_iff]

/-- A prefix occurrence is an occurrence. -/
theorem sub_of_pre {v l : List Char} (h : v <+: l) : v <:+: l := by
  obtain ⟨t, rfl⟩ := h; exact ⟨[], t, rfl⟩

/-- An occurrence inside a suffix is an occurrence. -/
theorem sub_of_sub_suf {v d l : List Char} (h : v <:+: d) (hs : d <:+ l) : v <:+: l := by
  obtain ⟨s, t, rfl⟩ := h
  obtain ⟨u, rfl⟩ := hs
  exact ⟨u ++ s, t, by simp⟩

/-- Occurrences map through character maps. -/
theorem sub_map {v x : List Char} (f : Char → Char) (h : v <:+: x) : v.map f <:+: x.map f := by
  obtain ⟨s, t, rfl⟩ := h
  exact ⟨s.map f, t.map f, by simp⟩

/-- An occurrence in the middle part survives surrounding text. -/
theorem sub_middle {v x y z : List Char} (h : v <:+: y) : v <:+: x ++ y ++ z := by
  obtain ⟨s, t, rfl⟩ := h
  exact ⟨x ++ s, t ++ z, by simp⟩

/-- Splitting a prefix of an append. -/
theorem pre_append_cases {w c X : List Char} (h : w <+: c ++ X) :
    w <+: c ∨ ∃ w₃, w = c ++ w₃ ∧ w₃ <+: X := by
  obtain ⟨r, hr⟩ := h
  rcases List.append_eq_append_iff.mp hr with ⟨a, ha1, ha2⟩ | ⟨a, ha1, ha2⟩
  · exact Or.inl ⟨a, ha1.symm⟩
  · exact Or.inr ⟨a, ha1, r, ha2.symm⟩

/-- Where an occurrence in an append can sit: in the left part, in the right
part, or spanning the boundary. -/
theorem sub_append_cases {v x y : List Char} (h : v <:+: x ++ y) :
    v <:+: x ∨ v <:+: y ∨
      ∃ v₁ v₂, v = v₁ ++ v₂ ∧ v₁ ≠ [] ∧ v₂ ≠ [] ∧ v₁ <:+ x ∧ v₂ <+: y := by
  obtain ⟨s, t, hst⟩ := h
  have hst' : s ++ (v ++ t) = x ++ y := by simpa [List.append_assoc] using hst
  rcases List.append_eq_append_iff.mp hst' with ⟨a, ha1, ha2⟩ | ⟨a, ha1, ha2⟩
  · -- x = s ++ a and v ++ t = a ++ y
    rcases List.append_eq_append_iff.mp ha2 with ⟨b, hb1, hb2⟩ | ⟨b, hb1, hb2⟩
    · -- a = v ++ b, t = b ++ y : occurrence inside x
      exact Or.inl ⟨s, b, by rw [ha1, hb1]; simp⟩
    · -- v = a ++ b, y = b ++ t
      rcases eq_or_ne a [] with rfl | hane
      · -- occurrence at the very start of y
        refine Or.inr (Or.inl ⟨[], t, ?_⟩)
        rw [hb2]
        simpa using hb1
      rcases eq_or_ne b [] with rfl | hbne
      · -- occurrence at the very end of x
        refine Or.inl ⟨s, [], ?_⟩
        rw [ha1, hb1]; simp
      · exact Or.inr (Or.inr ⟨a, b, hb1, hane, hbne, ⟨s, ha1.symm⟩, ⟨t, hb2.symm⟩⟩)
  · -- s = x ++ a and y = a ++ (v ++ t) : occurrence inside y
    exact Or.inr (Or.inl ⟨a, t, by rw [ha2, List.append_assoc]⟩)

/-- Every prefix of a replacement result either is a prefix of the original
text or runs into a copy of the inserted string `c`. -/
theorem pyReplace_pre_cases (old c : List Char) (hold : old ≠ []) :
    ∀ n t w, t.length ≤ n → w <+: pyReplace t old c →
      w <+: t ∨ ∃ u w₂, w = u ++ w₂ ∧ w₂ ≠ [] ∧ (w₂ <+: c ∨ ∃ w₃, w₂ = c ++ w₃) := by
  intro n
  induction n with
  | zero =>
    intro t w hlen hw
    have ht : t = [] := List.eq_nil_of_length_eq_zero (Nat.le_zero.mp hlen)
    subst ht
    rw [pyReplace_nil, if_neg hold] at hw
    obtain ⟨r, hr⟩ := hw
    rcases List.append_eq_nil.mp hr with ⟨rfl, -⟩
    exact Or.inl ⟨[], rfl⟩
  | succ n ih =>
    intro t w hlen hw
    rcases eq_or_ne w [] with rfl | hwne
    · exact Or.inl ⟨t, rfl⟩
    cases t with
    | nil =>
      rw [pyReplace_nil, if_neg hold] at hw
      obtain ⟨r, hr⟩ := hw
      rcases List.append_eq_nil.mp hr with ⟨rfl, -⟩
      exact Or.inl ⟨[], rfl⟩
    | cons ch cs =>
      by_cases hpre : old.isPrefixOf (ch :: cs)
      · rw [pyReplace_cons, if_neg hold, if_pos hpre] at hw
        rcases pre_append_cases hw with hc | ⟨w₃, hw3, -⟩
        · exact Or.inr ⟨[], w, by simp, hwne, Or.inl hc⟩
        · refine Or.inr ⟨[], w, by simp, hwne, Or.inr ⟨w₃, hw3⟩⟩
      · rw [pyReplace_cons, if_neg hold, if_neg hpre] at hw
        cases w with
        | nil => exact Or.inl ⟨ch :: cs, rfl⟩
        | cons wh w₁ =>
          rw [List.cons_prefix_cons] at hw
          obtain ⟨rfl, hw1⟩ := hw
          rcases ih cs w₁ (by simpa using Nat.lt_succ_iff.mp (Nat.lt_of_lt_of_le (by simp) hlen)) hw1 with h1 | ⟨u, w₂, hu, hw2ne, halt⟩
          · exact Or.inl (List.cons_prefix_cons.mpr ⟨rfl, h1⟩)
          · exact Or.inr ⟨wh :: u, w₂, by rw [hu]; rfl, hw2ne, halt⟩

/-- The conditions under which no occurrence of `v` can overlap an inserted
copy of `c` (all bounded, hence decidable, on concrete strings). -/
def Conds (v c : List Char) : Prop :=
  (¬ v <:+: c) ∧
  (∀ v₁ ∈ v.inits, v₁ ≠ [] → ¬ v₁ <:+ c) ∧
  (∀ v₂ ∈ v.tails, v₂ ≠ [] → ¬ v₂ <+: c) ∧
  (∀ a ∈ v.inits, a ≠ [] → ¬ c <+: v.drop a.length)

instance (v c : List Char) : Decidable (Conds v c) := by
  unfold Conds; infer_instance

/-- Core replacement lemma: replacing `old` by `c` leaves no occurrence of
`v`, provided either `old` is `v` itself (so every occurrence is consumed) or
the text was already `v`-free, and `v` cannot overlap an inserted `c`. -/
theorem pyReplace_no_occ (v old c : List Char) (hv : v ≠ []) (hold : old ≠ [])
    (hcd : Conds v c) :
    ∀ n t, t.length ≤ n → (old = v ∨ ¬ v <:+: t) → ¬ v <:+: pyReplace t old c := by
  obtain ⟨ha, hb, hc, hd⟩ := hcd
  intro n
  induction n with
  | zero =>
    intro t hlen _ hocc
    have ht : t = [] := List.eq_nil_of_length_eq_zero (Nat.le_zero.mp hlen)
    subst ht
    rw [pyReplace_nil, if_neg hold] at hocc
    simp [hv] at hocc
  | succ n ih =>
    intro t hlen hstart hocc
    cases t with
    | nil =>
      rw [pyReplace_nil, if_neg hold] at hocc
      simp [hv] at hocc
    | cons ch cs =>
      by_cases hpre : old.isPrefixOf (ch :: cs)
      · rw [pyReplace_cons, if_neg hold, if_pos hpre] at hocc
        rcases sub_append_cases hocc with h1 | h2 | ⟨v₁, v₂, hv12, h1ne, h2ne, hsuf, -⟩
        · exact ha h1
        · refine ih (cs.drop (old.length - 1)) ?_ ?_ h2
          · have := List.length_drop (old.length - 1) cs
            simp at hlen ⊢; omega
          · rcases hstart with rfl | hno
            · exact Or.inl rfl
            · refine Or.inr (fun hvd => hno ?_)
              exact sub_of_sub_suf (sub_of_sub_suf hvd (List.drop_suffix _ cs)) ⟨[ch], rfl⟩
        · exact hb v₁ (List.mem_inits v₁ v |>.mpr ⟨v₂, hv12.symm⟩) h1ne hsuf
      · rw [pyReplace_cons, if_neg hold, if_neg hpre] at hocc
        have hnp : ¬ v <+: ch :: cs := by
          rcases hstart with rfl | hno
          · rw [← isPrefixOf_eq_true]; exact hpre
          · exact fun hp => hno (sub_of_pre hp)
        rcases (List.infix_cons_iff).mp hocc with hp | htail
        · -- an occurrence at position 0 would run into an inserted copy of c
          cases v with
          | nil => exact hv rfl
          | cons vh v' =>
            rw [List.cons_prefix_cons] at hp
            obtain ⟨rfl, hp'⟩ := hp
            rcases pyReplace_pre_cases old c hold n cs v'
                (by simp at hlen; omega) hp' with h1 | ⟨u, w₂, hu, hw2ne, halt⟩
            · exact hnp (List.cons_prefix_cons.mpr ⟨rfl, h1⟩)
            · rcases halt with hwc | ⟨w₃, rfl⟩
              · refine hc w₂ ?_ hw2ne hwc
                refine List.mem_tails w₂ _ |>.mpr ⟨vh :: u, ?_⟩
                rw [hu]; rfl
              · refine hd (vh :: u) ?_ (by simp) ?_
                · refine List.mem_inits _ _ |>.mpr ⟨c ++ w₃, ?_⟩
                  rw [hu]; rfl
                · have : (vh :: v').drop (vh :: u).length = c ++ w₃ := by
                    have hv'' : vh :: v' = (vh :: u) ++ (c ++ w₃) := by rw [hu]; rfl
                    rw [hv'', List.drop_left]
                  rw [this]
                  exact ⟨w₃, rfl⟩
        · refine ih cs (by simp at hlen; omega) ?_ htail
          rcases hstart with rfl | hno
          · exact Or.inl rfl
          · exact Or.inr (fun hvc => hno (List.infix_cons hvc))

theorem mk_data (l : List Char) : (String.mk l).data = l := rfl

/-- Running the spelling loop leaves no occurrence of `v` when (i) every pair
either does nothing or cannot re-create `v`, and (ii) either some pair
replaces `v` itself and fires, or the text is already `v`-free. -/
theorem foldl_spell_no_occ (v lowq : List Char) (hv : v ≠ []) :
    ∀ (pairs : List (String × String)) (t : String),
      (∀ p ∈ pairs, p.2.data ≠ [] ∧ (p.2 = p.1 ∨ Conds v p.1.data)) →
      ((∃ p ∈ pairs, p.2.data = v ∧ (subStr p.2 lowq && (p.2 != p.1)) = true) ∨
        ¬ v <:+: t.data) →
      ¬ v <:+: (pairs.foldl (spellStep lowq) t).data := by
  intro pairs
  induction pairs with
  | nil =>
    intro t hok hstart
    rcases hstart with ⟨p, hp, -⟩ | hno
    · cases hp
    · simpa using hno
  | cons p ps ih =>
    intro t hok hstart
    rw [List.foldl_cons]
    have hokp := hok p (List.mem_cons_self p ps)
    have hokps : ∀ r ∈ ps, r.2.data ≠ [] ∧ (r.2 = r.1 ∨ Conds v r.1.data) :=
      fun r hr => hok r (List.mem_cons_of_mem p hr)
    by_cases hfire : (subStr p.2 lowq && (p.2 != p.1)) = true
    · have hstep : spellStep lowq t p = String.mk (pyReplace t.data p.2.data p.1.data) := by
        rw [spellStep, if_pos hfire]
      have hconds : Conds v p.1.data := by
        rcases hokp.2 with heq | hcd
        · rw [heq] at hfire; simp at hfire
        · exact hcd
      rcases hstart with ⟨p₀, hp₀, h2, h3⟩ | hno
      · rcases List.mem_cons.mp hp₀ with rfl | hmem
        · refine ih _ hokps (Or.inr ?_)
          rw [hstep, mk_data]
          exact pyReplace_no_occ v p₀.2.data p₀.1.data hv hokp.1 hconds
            t.data.length t.data le_rfl (Or.inl h2)
        · exact ih _ hokps (Or.inl ⟨p₀, hmem, h2, h3⟩)
      · refine ih _ hokps (Or.inr ?_)
        rw [hstep, mk_data]
        exact pyReplace_no_occ v p.2.data p.1.data hv hokp.1 hconds
          t.data.length t.data le_rfl (Or.inr hno)
    · have hstep : spellStep lowq t p = t := by rw [spellStep, if_neg hfire]
      rcases hstart with ⟨p₀, hp₀, h2, h3⟩ | hno
      · rcases List.mem_cons.mp hp₀ with rfl | hmem
        · exact absurd h3 hfire
        · rw [hstep]; exact ih _ hokps (Or.inl ⟨p₀, hmem, h2, h3⟩)
      · rw [hstep]; exact ih _ hokps (Or.inr hno)

/-- Per-variant elimination: under the decidable side conditions on the
concrete table, the spelling stage output has no exact-case occurrence of the
variant `v`, for any input whatsoever. -/
theorem spell_elim_of (v : String) (hv : v.data ≠ [])
    (hlow : v.data.map Char.toLower = v.data)
    (hok : ∀ p ∈ spelling_pairs, p.2.data ≠ [] ∧ (p.2 = p.1 ∨ Conds v.data p.1.data))
    (hkill : ∃ p ∈ spelling_pairs, p.2 = v ∧ (p.2 != p.1) = true)
    (q : String) : subStr v (handle_spelling_mistakes q).data = false := by
  have hmain : ¬ v.data <:+: (handle_spelling_mistakes q).data := by
    rw [handle_spelling_mistakes]
    by_cases hin : containsSub v.data (pyLower q).data = true
    · obtain ⟨p, hp, hpv, hpne⟩ := hkill
      refine foldl_spell_no_occ v.data (pyLower q).data hv spelling_pairs q hok
        (Or.inl ⟨p, hp, by rw [hpv], ?_⟩)
      rw [Bool.and_eq_true]
      exact ⟨by rw [subStr, hpv]; exact hin, hpne⟩
    · refine foldl_spell_no_occ v.data (pyLower q).data hv spelling_pairs q hok
        (Or.inr ?_)
      intro hocc
      have hm := sub_map Char.toLower hocc
      rw [hlow] at hm
      exact hin ((containsSub_iff _ _).mpr hm)
  rw [subStr]
  cases hcs : containsSub v.data (handle_spelling_mistakes q).data
  · rfl
  · exact absurd ((containsSub_iff _ _).mp hcs) hmain

/-- Claim C3 (amended): in the Spelling Corrector, for every input and every
variant distinct from its canonical form other than "punee" (whose canonical
form "pune" is itself a prefix of the variant, so a replacement can re-create
it), no exact-case occurrence of the variant remains in the stage output:
whenever the variant occurs in the lower-cased input all its exact-case
occurrences are replaced, no replacement can re-introduce it, and occurrences
differing in letter case are not occurrences of the variant string itself. -/
theorem c3_spelling_exact_elimination (q : String) (v : String)
    (hv : v ∈ (["bhusawal", "bhusawad", "jalgon", "jalgaun", "puna", "mumbay", "bombay"] : List String)) :
    subStr v (handle_spelling_mistakes q).data = false := by
  fin_cases hv <;>
    exact spell_elim_of _ (by decide) (by decide) (by decide) (by decide) q

/-- Witness for C3: the variant "bhusawal" is in scope of the theorem, and on
the input "plots in bhusawal" the spelling stage output indeed has no
occurrence of it. -/
theorem c3_witness :
    ("bhusawal" ∈ (["bhusawal", "bhusawad", "jalgon", "jalgaun", "puna", "mumbay", "bombay"] : List String)) ∧
    subStr "bhusawal" (handle_spelling_mistakes "plots in bhusawal").data = false :=
  ⟨by decide, c3_spelling_exact_elimination "plots in bhusawal" "bhusawal" (by decide)⟩

/-- Counterexample to C3 as stated: on the input "Bhusawal" the variant
"bhusawal" occurs (case-insensitively) in the lower-cased input and the pair
is in the table, yet after the stage an occurrence of the variant, matched
case-insensitively, still remains — the replacement is case-sensitive and
never fires on "Bhusawal". -/
theorem c3_counterexample :
    subStr "bhusawal" (pyLower "Bhusawal").data = true ∧
    ("bhusaval", "bhusawal") ∈ spelling_pairs ∧
    "bhusawal" ≠ "bhusaval" ∧
    subStr "bhusawal" (pyLower (handle_spelling_mistakes "Bhusawal")).data = true :=
  ⟨by decide, by decide, by decide, by decide⟩

/-! ## Lemmas about the improvements accumulator -/

theorem roAdd_nodup (acc : List String) (p : String × String) (h : acc.Nodup) :
    (roAdd acc p).Nodup := by
  rw [roAdd]
  split
  · exact h
  · next hmem =>
    refine List.Nodup.append h (List.nodup_singleton p.2) ?_
    intro x hx hx2
    simp only [List.mem_singleton] at hx2
    subst hx2
    exact hmem hx

theorem ro_improvements_nodup_aux :
    ∀ (locs : List (String × String)) (acc : List String),
      acc.Nodup → (locs.foldl roAdd acc).Nodup := by
  intro locs
  induction locs with
  | nil => intro acc h; simpa using h
  | cons p ps ih =>
    intro acc h
    rw [List.foldl_cons]
    exact ih _ (roAdd_nodup acc p h)

theorem ro_improvements_mem :
    ∀ (locs : List (String × String)) (acc : List String) (x : String),
      x ∈ locs.foldl roAdd acc → x ∈ acc ∨ ∃ p ∈ locs, x = p.2 := by
  intro locs
  induction locs with
  | nil => intro acc x h; exact Or.inl (by simpa using h)
  | cons p ps ih =>
    intro acc x h
    rw [List.foldl_cons] at h
    rcases ih _ x h with hacc | ⟨r, hr, hx⟩
    · rw [roAdd] at hacc
      split at hacc
      · exact Or.inl hacc
      · rcases List.mem_append.mp hacc with h1 | h1
        · exact Or.inl h1
        · simp only [List.mem_singleton] at h1
          exact Or.inr ⟨p, List.mem_cons_self p ps, h1⟩
    · exact Or.inr ⟨r, List.mem_cons_of_mem p hr, hx⟩

theorem extract_locations_mem (q : String) (p : String × String)
    (h : p ∈ extract_locations q) :
    p ∈ region_mappings ∨ p ∈ area_to_ro_mappings := by
  simp only [extract_locations, List.mem_append] at h
  rcases h with (ha | hb) | h2
  · exact Or.inl (List.mem_filter.mp ha).1
  · exact Or.inr (List.mem_filter.mp hb).1
  · obtain ⟨m, -, hm⟩ := List.mem_flatMap.mp h2
    exact Or.inl (List.mem_filter.mp hm).1

theorem midc_not_in_ro (q : String)
    (h : "MIDC Industrial Area" ∈ ro_improvements (extract_locations q)) : False := by
  rcases ro_improvements_mem _ [] _ h with h0 | ⟨p, hp, hx⟩
  · cases h0
  · rcases extract_locations_mem q p hp with hr | ha
    · have hval : ∀ r ∈ region_mappings, r.2 ≠ "MIDC Industrial Area" := by decide
      exact hval p hr hx.symm
    · have hval : ∀ r ∈ area_to_ro_mappings, r.2 ≠ "MIDC Industrial Area" := by decide
      exact hval p ha hx.symm

theorem midc_not_in_prop (c : Concepts)
    (h : "MIDC Industrial Area" ∈ prop_segment c) : False := by
  simp only [prop_segment, List.mem_filterMap] at h
  obtain ⟨a, -, ha⟩ := h
  rw [lookupAssoc] at ha
  cases hfind : property_mappings.find? (fun p => p.1 == a) with
  | none => rw [hfind] at ha; cases ha
  | some p =>
    rw [hfind] at ha
    simp only [Option.map_some', Option.some.injEq] at ha
    have hval : ∀ r ∈ property_mappings, r.2 ≠ "MIDC Industrial Area" := by decide
    exact hval p (List.mem_of_find?_eq_some hfind) ha

theorem midc_not_in_price (c : Concepts)
    (h : "MIDC Industrial Area" ∈ price_segment c) : False := by
  simp only [price_segment, List.mem_map] at h
  obtain ⟨a, -, ha⟩ := h
  by_cases h1 : a = "cheap"
  · rw [if_pos h1] at ha; exact absurd ha (by decide)
  · rw [if_neg h1] at ha
    by_cases h2 : a = "expensive"
    · rw [if_pos h2] at ha; exact absurd ha (by decide)
    · rw [if_neg h2] at ha; exact absurd ha (by decide)

theorem midc_not_in_avail (c : Concepts)
    (h : "MIDC Industrial Area" ∈ avail_segment c) : False := by
  rw [avail_segment] at h
  split at h
  · simp only [List.mem_singleton] at h
    exact absurd h (by decide)
  · cases h

theorem midc_not_in_intent (c : Concepts)
    (h : "MIDC Industrial Area" ∈ intent_segment c) : False := by
  simp only [intent_segment, List.mem_filterMap] at h
  obtain ⟨a, -, ha⟩ := h
  by_cases h1 : a = "cheapest"
  · rw [if_pos h1] at ha
    simp only [Option.some.injEq] at ha
    exact absurd ha (by decide)
  · rw [if_neg h1] at ha
    by_cases h2 : a = "largest"
    · rw [if_pos h2] at ha
      simp only [Option.some.injEq] at ha
      exact absurd ha (by decide)
    · rw [if_neg h2] at ha
      by_cases h3 : a = "comparison"
      · rw [if_pos h3] at ha
        simp only [Option.some.injEq] at ha
        exact absurd ha (by decide)
      · rw [if_neg h3] at ha
        cases ha

theorem midc_mem_segment (c : Concepts) :
    "MIDC Industrial Area" ∈ midc_segment c ↔
      (c.locations ≠ [] ∨ c.property_types ≠ [] ∨
       c.price_related ≠ [] ∨ c.availability_related ≠ []) := by
  rw [midc_segment]
  split
  · next hc => simpa using hc
  · next hc => simpa using hc

/-! ## Claim theorems C4 to C10 (with C1, C5) -/

/-- Claim C4 (amended): the regional-office identifiers appended by the
location step of the Query Augmenter are pairwise distinct (each office
string is appended only if not already present); the later steps do not
deduplicate, so the full improvements list can repeat a phrase. -/
theorem c4_ro_improvements_nodup (q : String) :
    (ro_improvements (extract_locations (corrected_of q))).Nodup :=
  ro_improvements_nodup_aux _ [] List.nodup_nil

/-- Counterexample to C4 as stated: on "industrial plots" the improvements
list contains the phrase "Industrial" twice (once for the root "plots", once
for "industrial"), so it is not pairwise distinct. -/
theorem c4_counterexample : ¬ (improvements_list "industrial plots").Nodup := by decide

/-- Claim C7: the Query Augmenter appends the fixed phrase
"MIDC Industrial Area" if and only if at least one of the concept record
fields locations, property_types, price_related or availability_related is
non-empty; a non-empty intents field alone never triggers it. -/
theorem c7_midc_iff (q : String) :
    ("MIDC Industrial Area" ∈ improvements_list q) ↔
      ((extract_root_concepts q).locations ≠ [] ∨
       (extract_root_concepts q).property_types ≠ [] ∨
       (extract_root_concepts q).price_related ≠ [] ∨
       (extract_root_concepts q).availability_related ≠ []) := by
  simp only [improvements_list, improvements_of, List.mem_append]
  constructor
  · rintro (((((hro | hpp) | hpr) | hav) | hint) | hmid)
    · exact absurd hro (midc_not_in_ro _)
    · exact absurd hpp (midc_not_in_prop _)
    · exact absurd hpr (midc_not_in_price _)
    · exact absurd hav (midc_not_in_avail _)
    · exact absurd hint (midc_not_in_intent _)
    · exact (midc_mem_segment _).mp hmid
  · intro h
    exact Or.inr ((midc_mem_segment _).mpr h)

/-- Claim C6: in the Cross-Lingual Normalizer, every token whose lower-cased
form is a key of the transliteration table is replaced by its gloss, taking
precedence over the synonym and mixed-language lookups (e.g. "aahet" becomes
"are", not "available"). -/
theorem c6_translit_precedence (q : String) (i : Nat) (w g : String)
    (hw : (pySplit q)[i]? = some w)
    (h : lookupAssoc marathi_transliteration_tokens (pyLower w) = some g) :
    (mixed_words q)[i]? = some g := by
  simp only [mixed_words, List.getElem?_map, hw, Option.map_some']
  simp only [normalize_token, h]

/-- Witness for C6: in "plots aahet ka", the token "aahet" (also present in
the synonym group of "available" and in the mixed-language map) is glossed to
"are". -/
theorem c6_witness : (mixed_words "plots aahet ka")[1]? = some "are" :=
  c6_translit_precedence "plots aahet ka" 1 "aahet" "are" (by decide) (by decide)

/-- Claim C8: any query containing a character of the Devanagari block
(U+0900 to U+097F) makes the language classifier answer true, regardless of
the rest of the query. -/
theorem c8_devanagari_true (q : String)
    (h : ∃ c ∈ q.data, 0x900 ≤ c.toNat ∧ c.toNat ≤ 0x97F) :
    should_respond_in_marathi q = true := by
  obtain ⟨c, hc, h1, h2⟩ := h
  have hdev : has_devanagari q = true := by
    rw [has_devanagari, List.any_eq_true]
    refine ⟨c, hc, ?_⟩
    rw [Bool.and_eq_true, decide_eq_true_eq, decide_eq_true_eq]
    exact ⟨h1, h2⟩
  rw [should_respond_in_marathi]
  simp [hdev]

/-- Witness for C8: a one-character Devanagari query. -/
theorem c8_witness : should_respond_in_marathi "क" = true :=
  c8_devanagari_true "क" ⟨'क', by decide, by decide, by decide⟩

/-! ## Lemmas for the language classifier -/

theorem should_eq_or (q : String) :
    should_respond_in_marathi q =
      (has_devanagari q || decide (2 ≤ marathi_tokens_found (pyLower q)) ||
       decide (2 ≤ marathi_pattern_count (pyLower q))) := by
  rw [should_respond_in_marathi]
  by_cases h1 : has_devanagari q = true
  · simp [h1]
  · rw [Bool.not_eq_true] at h1
    by_cases h2 : 2 ≤ marathi_tokens_found (pyLower q)
    · simp [h1, h2]
    · by_cases h3 : 2 ≤ marathi_pattern_count (pyLower q)
      · simp [h1, h2, h3]
      · simp [h1, h2, h3]

theorem countP_le_of_imp (l : List String) (p r : String → Bool)
    (h : ∀ a ∈ l, p a = true → r a = true) : l.countP p ≤ l.countP r := by
  induction l with
  | nil => simp
  | cons a t ih =>
    rw [List.countP_cons, List.countP_cons]
    have hih := ih (fun b hb => h b (List.mem_cons_of_mem a hb))
    by_cases hpa : p a = true
    · rw [if_pos hpa, if_pos (h a (List.mem_cons_self a t) hpa)]
      omega
    · rw [if_neg hpa]
      split <;> omega

theorem pyLower_append3 (s q t : String) :
    (pyLower (s ++ q ++ t)).data =
      (pyLower s).data ++ (pyLower q).data ++ (pyLower t).data := by
  simp [pyLower, String.data_append]

theorem subStr_extend {k : String} {a b c : List Char} (h : subStr k b = true) :
    subStr k (a ++ b ++ c) = true := by
  rw [subStr, containsSub_iff] at h ⊢
  exact sub_middle h

theorem tokens_found_extend (s q t : String) :
    marathi_tokens_found (pyLower q) ≤ marathi_tokens_found (pyLower (s ++ q ++ t)) := by
  rw [marathi_tokens_found, marathi_tokens_found]
  refine countP_le_of_imp _ _ _ ?_
  intro k _ hk
  rw [subStr, pyLower_append3, ← subStr]
  exact subStr_extend hk

theorem pattern_count_extend (s q t : String) :
    marathi_pattern_count (pyLower q) ≤ marathi_pattern_count (pyLower (s ++ q ++ t)) := by
  rw [marathi_pattern_count, marathi_pattern_count]
  refine countP_le_of_imp _ _ _ ?_
  intro k _ hk
  rw [subStr, pyLower_append3, ← subStr]
  exact subStr_extend hk

theorem has_devanagari_extend (s q t : String) (h : has_devanagari q = true) :
    has_devanagari (s ++ q ++ t) = true := by
  rw [has_devanagari, List.any_eq_true] at h ⊢
  obtain ⟨c, hc, hp⟩ := h
  refine ⟨c, ?_, hp⟩
  rw [String.data_append, String.data_append]
  exact List.mem_append.mpr (Or.inl (List.mem_append.mpr (Or.inr hc)))

/-- Claim C10: the language classifier is monotone under string extension —
once a query classifies as regional, surrounding it with arbitrary prefix and
suffix text cannot flip the answer to false (all three decision rules are
presence or count tests over substrings). -/
theorem c10_monotone (s q t : String) (h : should_respond_in_marathi q = true) :
    should_respond_in_marathi (s ++ q ++ t) = true := by
  rw [should_eq_or] at h ⊢
  rcases (Bool.or_eq_true _ _).mp h with h12 | h3
  · rcases (Bool.or_eq_true _ _).mp h12 with h1 | h2
    · rw [has_devanagari_extend s q t h1]
      simp
    · rw [decide_eq_true_eq] at h2
      have h2' : 2 ≤ marathi_tokens_found (pyLower (s ++ q ++ t)) :=
        le_trans h2 (tokens_found_extend s q t)
      simp [h2']
  · rw [decide_eq_true_eq] at h3
    have h3' : 2 ≤ marathi_pattern_count (pyLower (s ++ q ++ t)) :=
      le_trans h3 (pattern_count_extend s q t)
    simp [h3']

/-- Witness for C10: "madhe aahet" classifies as regional, and so does an
extension of it on both sides. -/
theorem c10_witness : should_respond_in_marathi ("x " ++ "madhe aahet" ++ " y") = true :=
  c10_monotone "x " "madhe aahet" " y" (by decide)

/-- Counterexample to C1: the classifier answers true, not false, on
"plots available in pune". -/
theorem c1_counterexample :
    should_respond_in_marathi "plots available in pune" = true := by decide

/-- Claim C1 (amended): `preferRegionalLanguage("plots available in pune")`
returns true: the query has no Devanagari character, but the substring-based
count of transliteration keys is 4 (the keys "plot", "plots", "la" and "le"
all occur as substrings), which meets the threshold of 2. -/
theorem c1_amended_value :
    should_respond_in_marathi "plots available in pune" = true ∧
    has_devanagari "plots available in pune" = false ∧
    marathi_tokens_found (pyLower "plots available in pune") = 4 :=
  ⟨by decide, by decide, by decide⟩

/-- Claim C5: the rewritten query for "plots in bhusawal" contains the office
identifier "RO Jalgaon", the category "Industrial" and the domain anchor
"MIDC Industrial Area". -/
theorem c5_round_trip :
    subStr "RO Jalgaon" (improve_query "plots in bhusawal").data = true ∧
    subStr "Industrial" (improve_query "plots in bhusawal").data = true ∧
    subStr "MIDC Industrial Area" (improve_query "plots in bhusawal").data = true := by
  have h : improve_query "plots in bhusawal" =
      "plots in bhusaval RO Jalgaon Industrial MIDC Industrial Area" := by decide
  rw [h]
  exact ⟨by decide, by decide, by decide⟩

/-! ## Lemmas for the no-match identity claim -/

/-- A token that matches none of the three per-token tables of the
Cross-Lingual Normalizer. -/
def token_unmatched (w : String) : Bool :=
  let wl := pyLower w
  (lookupAssoc marathi_transliteration_tokens wl).isNone &&
  (semantic_synonyms.find? (fun p => p.2.contains wl)).isNone &&
  (lookupAssoc mixed_language_mappings wl).isNone

/-- No spelling-variant replacement fires on the query. -/
def no_spelling_match (q : String) : Bool :=
  spelling_pairs.all (fun p => !(subStr p.2 (pyLower q).data && (p.2 != p.1)))

theorem normalize_token_id (w : String) (h : token_unmatched w = true) :
    normalize_token w = (w, false) := by
  rw [token_unmatched] at h
  simp only [Bool.and_eq_true, Option.isNone_iff_eq_none] at h
  obtain ⟨⟨h1, h2⟩, h3⟩ := h
  rw [normalize_token]
  simp only [h1, h2, h3]

theorem map_eq_self {α : Type} (l : List α) (f : α → α) (h : ∀ x ∈ l, f x = x) :
    l.map f = l := by
  induction l with
  | nil => rfl
  | cons a t ih =>
    rw [List.map_cons, h a (List.mem_cons_self a t),
      ih (fun x hx => h x (List.mem_cons_of_mem a hx))]

theorem foldl_spell_id (lowq : List Char) :
    ∀ (pairs : List (String × String)) (t : String),
      (∀ p ∈ pairs, (subStr p.2 lowq && (p.2 != p.1)) = false) →
      pairs.foldl (spellStep lowq) t = t := by
  intro pairs
  induction pairs with
  | nil => intro t _; rfl
  | cons p ps ih =>
    intro t h
    rw [List.foldl_cons, spellStep,
      if_neg (by rw [h p (List.mem_cons_self p ps)]; simp)]
    exact ih t (fun r hr => h r (List.mem_cons_of_mem p hr))

/-- Claim C2 (amended): for every whitespace-normalized input (the input
equals its whitespace-split tokens rejoined with single spaces) in which no
table entry matches at any stage — no transliteration, synonym or
mixed-language token match, no spelling-variant substring, no location match,
and an all-empty concept record (so no property-type, price, availability or
intent match) — `improve_query` returns the input itself, character for
character. -/
theorem c2_no_match_id (q : String)
    (hws : String.intercalate " " (pySplit q) = q)
    (htok : ∀ w ∈ pySplit q, token_unmatched w = true)
    (hsp : no_spelling_match q = true)
    (hloc : extract_locations q = [])
    (hcon : extract_root_concepts q = ⟨[], [], [], [], []⟩) :
    improve_query q = q := by
  have hmw : mixed_words q = pySplit q := by
    rw [mixed_words, List.map_map]
    refine map_eq_self _ _ (fun w hw => ?_)
    rw [Function.comp_apply, normalize_token_id w (htok w hw)]
  have hmix : (handle_mixed_language q).1 = q := by
    rw [handle_mixed_language]
    simp only
    rw [hmw, hws]
  have hcor : corrected_of q = q := by
    rw [corrected_of, hmix, handle_spelling_mistakes]
    refine foldl_spell_id _ _ _ (fun p hp => ?_)
    have hall := List.all_eq_true.mp hsp p hp
    rwa [Bool.not_eq_true'] at hall
  have himp : improvements_list q = [] := by
    rw [improvements_list, improvements_of, hcor, hloc, hcon]
    simp [ro_improvements, prop_segment, price_segment, avail_segment,
      intent_segment, midc_segment]
  rw [improve_query]
  simp only [himp, List.isEmpty_nil, if_true]
  exact hcor

/-- Counterexample to C2 as stated: the single-space query " " matches no
table entry at any stage, yet `improve_query " "` returns the empty string
(the token split/rejoin normalizes whitespace), not " " itself. -/
theorem c2_counterexample :
    (∀ w ∈ pySplit " ", token_unmatched w = true) ∧
    no_spelling_match " " = true ∧
    extract_locations " " = [] ∧
    extract_root_concepts " " = ⟨[], [], [], [], []⟩ ∧
    improve_query " " ≠ " " :=
  ⟨by decide, by decide, by decide, by decide, by decide⟩

/-- Witness for C2: the query "xyzw" is whitespace-normalized, matches
nothing, and is returned unchanged. -/
theorem c2_witness : improve_query "xyzw" = "xyzw" :=
  c2_no_match_id "xyzw" (by decide) (by decide) (by decide) (by decide) (by decide)

/-! ## Totality of the two entry points (claim C9) -/

/-- Python `d[k]` as a fallible access (a miss would raise KeyError). -/
def dictGet (tbl : List (String × String)) (k : String) : Option String :=
  lookupAssoc tbl k

/-- Token resolution of `_handle_mixed_language` with every `d[k]` access
modelled as fallible, guarded exactly as in the source by `k in d`. -/
def normalize_tokenE (w : String) : Option (String × Bool) :=
  let wl := pyLower w
  if (lookupAssoc marathi_transliteration_tokens wl).isSome then
    (dictGet marathi_transliteration_tokens wl).map (fun g => (g, true))
  else
    match semantic_synonyms.find? (fun p => p.2.contains wl) with
    | some p => some (p.1, false)
    | none =>
      if (lookupAssoc mixed_language_mappings wl).isSome then
        (dictGet mixed_language_mappings wl).map (fun g => (g, false))
      else some (w, false)

def mapOptM (f : String → Option (String × Bool)) :
    List String → Option (List (String × Bool))
  | [] => some []
  | a :: as => do
    let b ← f a
    let bs ← mapOptM f as
    pure (b :: bs)

/-- Step 6 of `improve_query` with the guarded `property_mappings[t]` access
modelled as fallible. -/
def prop_stepE (acc : List String) (t : String) : Option (List String) :=
  if (lookupAssoc property_mappings t).isSome then
    (dictGet property_mappings t).map (fun v => acc ++ [v])
  else some acc

def foldOptM (f : List String → String → Option (List String)) :
    List String → List String → Option (List String)
  | acc, [] => some acc
  | acc, t :: ts => do
    let acc2 ← f acc t
    foldOptM f acc2 ts

def prop_segmentE (c : Concepts) : Option (List String) :=
  foldOptM prop_stepE [] c.property_types

/-- Version of `improve_query` with every dictionary access fallible: any unguarded miss
would surface as `none`. -/
def improve_queryE (q : String) : Option String := do
  let concepts := extract_root_concepts q
  let pairs ← mapOptM normalize_tokenE (pySplit q)
  let mixed := String.intercalate " " (pairs.map Prod.fst)
  let corrected := handle_spelling_mistakes mixed
  let ros := ro_improvements (extract_locations corrected)
  let props ← prop_segmentE concepts
  let improvements := ros ++ props ++ price_segment concepts ++
    avail_segment concepts ++ intent_segment concepts ++ midc_segment concepts
  if improvements.isEmpty then pure corrected
  else pure (corrected ++ " " ++ String.intercalate " " improvements)

theorem normalize_tokenE_eq (w : String) :
    normalize_tokenE w = some (normalize_token w) := by
  rw [normalize_tokenE, normalize_token]
  cases h1 : lookupAssoc marathi_transliteration_tokens (pyLower w) with
  | some g => simp [h1, dictGet]
  | none =>
    cases h2 : semantic_synonyms.find? (fun p => p.2.contains (pyLower w)) with
    | some p => simp [h1, h2]
    | none =>
      cases h3 : lookupAssoc mixed_language_mappings (pyLower w) with
      | some g => simp [h1, h2, h3, dictGet]
      | none => simp [h1, h2, h3, dictGet]

theorem mapOptM_eq (l : List String) :
    mapOptM normalize_tokenE l = some (l.map normalize_token) := by
  induction l with
  | nil => rfl
  | cons a as ih => rw [mapOptM, normalize_tokenE_eq, ih]; rfl

theorem foldOptM_eq (l : List String) : ∀ acc,
    foldOptM prop_stepE acc l =
      some (acc ++ l.filterMap (fun t => lookupAssoc property_mappings t)) := by
  induction l with
  | nil => intro acc; simp [foldOptM]
  | cons t ts ih =>
    intro acc
    rw [foldOptM]
    cases h : lookupAssoc property_mappings t with
    | some v =>
      have hstep : prop_stepE acc t = some (acc ++ [v]) := by
        simp [prop_stepE, dictGet, h]
      rw [hstep]
      show foldOptM prop_stepE (acc ++ [v]) ts = _
      rw [ih (acc ++ [v])]
      simp [List.filterMap_cons, h]
    | none =>
      have hstep : prop_stepE acc t = some acc := by
        simp [prop_stepE, dictGet, h]
      rw [hstep]
      show foldOptM prop_stepE acc ts = _
      rw [ih acc]
      simp [List.filterMap_cons, h]

/-- Claim C9: both entry points are total on every input string — the
explicitly fallible version of `improve_query`, in which every dictionary
access can fail, always returns `some` of the pure result (every lookup is
membership-guarded), and the language classifier always returns a boolean. -/
theorem c9_totality (q : String) :
    improve_queryE q = some (improve_query q) ∧
    (should_respond_in_marathi q = true ∨ should_respond_in_marathi q = false) := by
  constructor
  · rw [improve_queryE, mapOptM_eq]
    simp only [Option.bind_eq_bind, Option.some_bind]
    rw [prop_segmentE, foldOptM_eq]
    simp only [Option.bind_eq_bind, Option.some_bind, List.nil_append, Option.pure_def]
    rw [improve_query]
    simp only [improvements_list, improvements_of, corrected_of,
      handle_mixed_language, mixed_words, prop_segment]
    split
    · rfl
    · rfl
  · cases h : should_respond_in_marathi q
    · exact Or.inr rfl
    · exact Or.inl rfl
